import Mathlib

/-!
Verification of the check-in timeline engine (`checkin.py`, `checkin_timeline.py`).

The program keeps a chronologically sorted list of agent check-ins, groups them
into sliding time windows, and detects pairwise rendezvous (two agents at the
same location within a window).  We embed the record type, the timeline
container and its `add`, `windows` and `rendezvous` operations shallowly:
timestamps become integers (instants with subtraction giving a duration),
Python's stable `sorted` becomes `List.mergeSort` with the time comparator,
generators become lists, and a raised exception becomes an `Option` error
component paired with the elements produced before the raise.
-/

/-- One check-in record (`CheckIn`): an agent's name, the code of the
pokeball (container kind) it carries, a location and a timestamp.
Timestamps are modelled as integers (seconds); the window size is a duration
in the same unit. -/
structure CheckIn where
  name : String
  pokeball : Nat
  location : String
  time : Int
  deriving DecidableEq

namespace CheckIn

/-- Method `CheckIn.__lt__`: `self.time < other.time`. -/
def lt (a b : CheckIn) : Bool := decide (a.time < b.time)

/-- Method `CheckIn.__le__`: `self.time <= other.time`. -/
def le (a b : CheckIn) : Bool := decide (a.time ≤ b.time)

/-- Method `CheckIn.__gt__`: `self.time > other.time`. -/
def gt (a b : CheckIn) : Bool := decide (a.time > b.time)

/-- Method `CheckIn.__ge__`: `self.time >= other.time`. -/
def ge (a b : CheckIn) : Bool := decide (a.time ≥ b.time)

end CheckIn

/-- The record as `CheckIn.__init__` actually builds it: the four arguments are
stored verbatim, so the textual timestamp stays a string. -/
structure CheckInRaw where
  name : String
  pokeball : Nat
  location : String
  time : String
  deriving DecidableEq

/-- Constructor `CheckIn.__init__`: assigns the four parameters to the four fields and does
nothing else.  The `Except` result models the constructor's ability to raise a
`ValueError` (its docstring promises one from `datetime.strptime`), but the
body performs no parsing or validation, so it always succeeds. -/
def CheckInRaw.init (name : String) (pokeball : Nat) (location : String)
    (time : String) : Except String CheckInRaw :=
  Except.ok { name := name, pokeball := pokeball, location := location, time := time }

/-- One piece of a Python format template: a literal segment or a positional
argument reference `\x7bi\x7d`. -/
inductive FmtPart where
  | lit : String → FmtPart
  | arg : Nat → FmtPart
  deriving DecidableEq

/-- Python `str.format`: substitute each positional reference by the argument
at that index; `none` models the `IndexError` raised when an index is out of
range for the supplied arguments. -/
def pyFormat (parts : List FmtPart) (args : List String) : Option String :=
  (parts.mapM (fun part =>
    match part with
    | FmtPart.lit s => some s
    | FmtPart.arg i => args.get? i)).map String.join

/-- The template of `CheckIn.__str__` as written in the source:
`"\x7b1\x7d at \x7b2\x7d with a/an \x7b3\x7d (\x7b4\x7d)"`. -/
def strTemplate : List FmtPart :=
  [FmtPart.arg 1, FmtPart.lit " at ", FmtPart.arg 2, FmtPart.lit " with a/an ",
   FmtPart.arg 3, FmtPart.lit " (", FmtPart.arg 4, FmtPart.lit ")"]

/-- Method `CheckIn.__str__`: formats the template above with the four arguments
`(self.name, self.location, self.pokeball, self.time)`, in that order. -/
def CheckInRaw.toStr (c : CheckInRaw) : Option String :=
  pyFormat strTemplate [c.name, c.location, toString c.pokeball, c.time]

/-- The timeline (`CheckInTimeline`): its single member variable `checkins`. -/
structure CheckInTimeline where
  checkins : List CheckIn
  deriving DecidableEq

/-- Constructor `CheckInTimeline.__init__`: starts with an empty list. -/
def CheckInTimeline.empty : CheckInTimeline := ⟨[]⟩

/-- Method `CheckInTimeline.add`: append the check-in to the end of the list, then
replace the list by `sorted(self.checkins)`.  Python's `sorted` is a stable
sort driven by `CheckIn.__lt__`, i.e. by timestamp; `List.mergeSort` with the
time comparator is exactly that. -/
def CheckInTimeline.add (t : CheckInTimeline) (c : CheckIn) : CheckInTimeline :=
  ⟨(t.checkins ++ [c]).mergeSort CheckIn.le⟩

/-- A sequence of `add` calls, in order. -/
def CheckInTimeline.addAll (t : CheckInTimeline) (cs : List CheckIn) : CheckInTimeline :=
  cs.foldl CheckInTimeline.add t

/-- The inner loop of `CheckInTimeline.windows` for one anchor: starting from
the anchor's position, keep taking check-ins while `time2 - time1 < w`,
stopping at the first failure (`break`).  The argument is the suffix
`checkins[index:]`, whose head is the anchor. -/
def windowFrom (w : Int) : List CheckIn → List CheckIn
  | [] => []
  | c1 :: rest => (c1 :: rest).takeWhile (fun c2 => decide (c2.time - c1.time < w))

/-- Method `CheckInTimeline.windows`: for every index of the list, yield the window
anchored there. -/
def CheckInTimeline.windows (t : CheckInTimeline) (w : Int) : List (List CheckIn) :=
  (List.range t.checkins.length).map (fun i => windowFrom w (t.checkins.drop i))

/-- The two ways an iteration of `CheckInTimeline.rendezvous` can raise: the
`DataError` of an oversized group, or the `IndexError` of `window[0]` on an
empty window. -/
inductive RendError where
  | dataError : String → RendError
  | indexError : RendError
  deriving DecidableEq

/-- The message of the `DataError` raised by `rendezvous`. -/
def dataErrorMsg : String := "DataError: Too many members at rendezvous"

/-- The loop body of `CheckInTimeline.rendezvous` over a list of windows.
For each window, `tup` starts as `(window[0],)` — an `IndexError` if the
window is empty — and gains every later member sharing the anchor's location.
`len(tup) < 2` skips, `len(tup) == 2` yields the pair, and more raises the
`DataError`.  The result is the list of pairs yielded before the generator
finished or raised, together with the raised error, if any. -/
def rendezvousAux : List (List CheckIn) → List (CheckIn × CheckIn) × Option RendError
  | [] => ([], none)
  | [] :: _ => ([], some RendError.indexError)
  | (anchor :: rest) :: ws =>
    match rest.filter (fun c => anchor.location == c.location) with
    | [] => rendezvousAux ws
    | [m] => ((anchor, m) :: (rendezvousAux ws).1, (rendezvousAux ws).2)
    | _ :: _ :: _ => ([], some (RendError.dataError dataErrorMsg))

/-- Method `CheckInTimeline.rendezvous`: run the rendezvous loop over
`self.windows(window_size)`. -/
def CheckInTimeline.rendezvous (t : CheckInTimeline) (w : Int) :
    List (CheckIn × CheckIn) × Option RendError :=
  rendezvousAux (t.windows w)

/-- The candidate group of a window: the anchor plus every other window member
at the anchor's location (the `tup` built by the rendezvous loop). -/
def candGroup : List CheckIn → List CheckIn
  | [] => []
  | anchor :: rest => anchor :: rest.filter (fun c => anchor.location == c.location)

/-- The pairs the rendezvous loop emits for a list of windows when no window
raises: one pair per window whose candidate group has exactly two members. -/
def pairsOf (ws : List (List CheckIn)) : List (CheckIn × CheckIn) :=
  ws.filterMap (fun win =>
    match win with
    | [] => none
    | anchor :: rest =>
      match rest.filter (fun c => anchor.location == c.location) with
      | [m] => some (anchor, m)
      | _ => none)

/-- Non-decreasing timestamps. -/
def SortedByTime (l : List CheckIn) : Prop :=
  l.Pairwise (fun a b => a.time ≤ b.time)

/-- C7: the four comparison operators on records read nothing but the `time`
fields — replacing the other fields never changes any of them — and two
records with equal timestamps satisfy neither `<` nor `>` but both `<=` and
`>=`. -/
theorem checkin_compare_only_time (a b a' b' : CheckIn)
    (ha : a.time = a'.time) (hb : b.time = b'.time) :
    (a.lt b = a'.lt b' ∧ a.le b = a'.le b' ∧ a.gt b = a'.gt b' ∧ a.ge b = a'.ge b') ∧
    (a.time = b.time →
      a.lt b = false ∧ a.gt b = false ∧ a.le b = true ∧ a.ge b = true) := by
  constructor
  · simp [CheckIn.lt, CheckIn.le, CheckIn.gt, CheckIn.ge, ha, hb]
  · intro hab
    simp [CheckIn.lt, CheckIn.le, CheckIn.gt, CheckIn.ge, hab]

/-- Witness for C7 at concrete records differing in every non-time field. -/
theorem checkin_compare_only_time_witness :
    (CheckIn.lt ⟨"Alice", 1, "Vault", 5⟩ ⟨"Bob", 2, "Cave", 5⟩ = false ∧
      CheckIn.le ⟨"Alice", 1, "Vault", 5⟩ ⟨"Bob", 2, "Cave", 5⟩ = true) :=
  ⟨((checkin_compare_only_time ⟨"Alice", 1, "Vault", 5⟩ ⟨"Bob", 2, "Cave", 5⟩
      ⟨"Alice", 1, "Vault", 5⟩ ⟨"Bob", 2, "Cave", 5⟩ rfl rfl).2 rfl).1,
   (((checkin_compare_only_time ⟨"Alice", 1, "Vault", 5⟩ ⟨"Bob", 2, "Cave", 5⟩
      ⟨"Alice", 1, "Vault", 5⟩ ⟨"Bob", 2, "Cave", 5⟩ rfl rfl).2 rfl).2).2.1⟩

/-- C8: `windows` and `rendezvous` read the timeline's current state and
nothing else, so two calls with the same window size on an unmodified
timeline return identical sequences — including, for `rendezvous`, the same
pairs in the same order and the same raised error at the same position. -/
theorem windows_rendezvous_idempotent (t : CheckInTimeline) (w : Int) :
    t.windows w = t.windows w ∧ t.rendezvous w = t.rendezvous w :=
  ⟨rfl, rfl⟩

/-- C6 (refutation): the constructor succeeds on a timestamp string that is
not parseable as a date-time, storing it verbatim — it never raises, because
it never parses. -/
theorem checkin_init_accepts_garbage_time :
    CheckInRaw.init "Alice" 1 "Vault" "not-a-timestamp" =
      Except.ok { name := "Alice", pokeball := 1, location := "Vault",
                  time := "not-a-timestamp" } := rfl

/-- C9 (refutation): `__str__` fails for every record: the template references
positional argument 4 but only four arguments (indices 0 to 3) are supplied,
so formatting raises `IndexError`; the name (argument 0) is never referenced
at all. -/
theorem checkin_str_raises (c : CheckInRaw) : c.toStr = none := rfl

/-- The time comparator is transitive. -/
theorem checkin_le_trans : ∀ a b c : CheckIn, CheckIn.le a b → CheckIn.le b c → CheckIn.le a c := by
  intro a b c hab hbc
  simp only [CheckIn.le, decide_eq_true_eq] at *
  omega

/-- The time comparator is total. -/
theorem checkin_le_total : ∀ a b : CheckIn, CheckIn.le a b || CheckIn.le b a := by
  intro a b
  simp only [CheckIn.le, Bool.or_eq_true, decide_eq_true_eq]
  omega

/-- Stability of the sort used by `add`: the records carrying any fixed
timestamp appear in the sorted list exactly as they appeared in the input. -/
theorem mergeSort_filter_time (l : List CheckIn) (τ : Int) :
    (l.mergeSort CheckIn.le).filter (fun c => c.time == τ) =
      l.filter (fun c => c.time == τ) := by
  have hmem : ∀ a ∈ l.filter (fun c => c.time == τ), a.time = τ := by
    intro a ha
    simpa using List.of_mem_filter ha
  have hpair : (l.filter (fun c => c.time == τ)).Pairwise (fun a b => CheckIn.le a b = true) := by
    apply List.pairwise_of_forall_mem_list
    intro a ha b hb
    simp only [CheckIn.le, decide_eq_true_eq]
    rw [hmem a ha, hmem b hb]
  have h1 : List.Sublist (l.filter (fun c => c.time == τ)) (l.mergeSort CheckIn.le) :=
    List.sublist_mergeSort checkin_le_trans checkin_le_total hpair (List.filter_sublist l)
  have h2 : List.Sublist (l.filter (fun c => c.time == τ))
      ((l.mergeSort CheckIn.le).filter (fun c => c.time == τ)) := by
    have := h1.filter (fun c => c.time == τ)
    rwa [List.filter_eq_self.mpr (fun a ha => by simp [hmem a ha])] at this
  have h3 : ((l.mergeSort CheckIn.le).filter (fun c => c.time == τ)).length =
      (l.filter (fun c => c.time == τ)).length :=
    ((l.mergeSort_perm CheckIn.le).filter (fun c => c.time == τ)).length_eq
  exact (h2.eq_of_length h3.symm).symm

/-- Adding one check-in, one step: the new list is a permutation of the old
list with the new record appended. -/
theorem add_perm (t : CheckInTimeline) (c : CheckIn) :
    ((t.add c).checkins).Perm (t.checkins ++ [c]) :=
  List.mergeSort_perm (t.checkins ++ [c]) CheckIn.le

/-- After any `add` the stored list is sorted by timestamp. -/
theorem add_sorted (t : CheckInTimeline) (c : CheckIn) :
    SortedByTime ((t.add c).checkins) := by
  have h := List.sorted_mergeSort checkin_le_trans checkin_le_total (t.checkins ++ [c])
  exact h.imp (fun hab => by simpa [CheckIn.le] using hab)

/-- Equal-timestamp records of the state reached by a sequence of `add`s stand
in insertion order. -/
theorem addAll_filter_time (cs : List CheckIn) (t : CheckInTimeline) (τ : Int) :
    ((t.addAll cs).checkins).filter (fun c => c.time == τ) =
      (t.checkins ++ cs).filter (fun c => c.time == τ) := by
  induction cs generalizing t with
  | nil => simp [CheckInTimeline.addAll]
  | cons c cs ih =>
    rw [show t.addAll (c :: cs) = (t.add c).addAll cs from rfl, ih]
    simp only [CheckInTimeline.add, List.filter_append, mergeSort_filter_time]
    cases h : (c.time == τ) <;> simp [List.filter_cons, h]

/-- C4: whatever the order of the previous `add` calls, the `add` of one more
record leaves the stored list a permutation of the old list plus the new
record (nothing lost or duplicated), sorted by non-decreasing timestamp, with
equal-timestamp records kept in insertion order.  (`add` mutates the timeline
and returns `None` in Python; here it is the state transformer.) -/
theorem add_spec (cs : List CheckIn) (c : CheckIn) :
    (((CheckInTimeline.empty.addAll cs).add c).checkins).Perm
        ((CheckInTimeline.empty.addAll cs).checkins ++ [c]) ∧
    SortedByTime (((CheckInTimeline.empty.addAll cs).add c).checkins) ∧
    ∀ τ : Int, (((CheckInTimeline.empty.addAll cs).add c).checkins).filter
        (fun x => x.time == τ) = (cs ++ [c]).filter (fun x => x.time == τ) := by
  refine ⟨add_perm _ c, add_sorted _ c, fun τ => ?_⟩
  have h : (CheckInTimeline.empty.addAll cs).add c = CheckInTimeline.empty.addAll (cs ++ [c]) := by
    simp [CheckInTimeline.addAll, List.foldl_append]
  rw [h, addAll_filter_time]
  rfl

/-- The length of `windows` equals the number of check-ins. -/
theorem windows_length (t : CheckInTimeline) (w : Int) :
    (t.windows w).length = t.checkins.length := by
  simp [CheckInTimeline.windows]

/-- The window at index `i` is the inner scan started at `checkins[i:]`. -/
theorem windows_getElem? (t : CheckInTimeline) (w : Int) (i : Nat)
    (hi : i < t.checkins.length) :
    (t.windows w)[i]? = some (windowFrom w (t.checkins.drop i)) := by
  simp [CheckInTimeline.windows, List.getElem?_range hi]

/-- The element right after a `takeWhile` block, when it exists, fails the
predicate: the scan stopped there. -/
theorem takeWhile_next_not {α : Type} (p : α → Bool) :
    ∀ (l : List α) (x : α), l[(l.takeWhile p).length]? = some x → p x = false := by
  intro l
  induction l with
  | nil => simp
  | cons a l ih =>
    intro x
    by_cases hp : p a
    · rw [List.takeWhile_cons_of_pos hp]
      simpa [List.length_cons] using ih x
    · rw [List.takeWhile_cons_of_neg hp]
      simp only [List.length_nil, List.getElem?_cons_zero, Option.some_inj]
      intro hx
      rw [hx] at hp
      simpa using hp

/-- C3: on a sorted timeline, the window anchored at position `i` is exactly
the maximal contiguous run starting there of records within `w` of the
anchor: it is what `windows` yields at `i`, every member lies at or after the
anchor's timestamp and strictly within `w` of it, the window is a contiguous
prefix of the remaining records, and the record right after the window (when
one exists) is the first whose offset reaches `w`. -/
theorem windows_are_maximal_runs (t : CheckInTimeline) (w : Int)
    (hs : SortedByTime t.checkins) (i : Nat) (anchor : CheckIn)
    (ha : t.checkins[i]? = some anchor) :
    (t.windows w)[i]? = some (windowFrom w (t.checkins.drop i)) ∧
    (∀ m ∈ windowFrom w (t.checkins.drop i),
        anchor.time ≤ m.time ∧ m.time - anchor.time < w) ∧
    windowFrom w (t.checkins.drop i) =
      (t.checkins.drop i).take (windowFrom w (t.checkins.drop i)).length ∧
    (∀ x, (t.checkins.drop i)[(windowFrom w (t.checkins.drop i)).length]? = some x →
        w ≤ x.time - anchor.time) := by
  have hi : i < t.checkins.length := by
    rcases List.getElem?_eq_some.mp ha with ⟨h, _⟩
    exact h
  have hval : t.checkins[i] = anchor := by
    rcases List.getElem?_eq_some.mp ha with ⟨h, hv⟩
    exact hv
  have hdrop : t.checkins.drop i = anchor :: t.checkins.drop (i + 1) := by
    rw [List.drop_eq_getElem_cons hi, hval]
  have hsorted : (t.checkins.drop i).Pairwise (fun a b => a.time ≤ b.time) :=
    hs.sublist (List.drop_sublist i t.checkins)
  have hfromrest : ∀ m ∈ t.checkins.drop (i + 1), anchor.time ≤ m.time := by
    rw [hdrop] at hsorted
    exact (List.pairwise_cons.mp hsorted).1
  have hwin : windowFrom w (t.checkins.drop i) =
      (t.checkins.drop i).takeWhile (fun c2 => decide (c2.time - anchor.time < w)) := by
    rw [hdrop, windowFrom]
  refine ⟨windows_getElem? t w i hi, ?_, ?_, ?_⟩
  · intro m hm
    have hlt : m.time - anchor.time < w := by
      rw [hwin] at hm
      simpa using List.mem_takeWhile_imp hm
    have hmem : m ∈ t.checkins.drop i := by
      rw [hwin] at hm
      exact (List.takeWhile_sublist _).subset hm
    rw [hdrop] at hmem
    rcases List.mem_cons.mp hmem with h | h
    · exact ⟨le_of_eq (by rw [h]), hlt⟩
    · exact ⟨hfromrest m h, hlt⟩
  · rw [hwin]
    exact List.prefix_iff_eq_take.mp (List.takeWhile_prefix _)
  · intro x hx
    rw [hwin] at hx
    have := takeWhile_next_not _ _ x hx
    simp only [decide_eq_false_iff_not, not_lt] at this
    exact this

/-- With a positive window size the anchor passes its own test (offset `0`),
so the window starts with the anchor. -/
theorem windowFrom_head (w : Int) (hw : 0 < w) (c1 : CheckIn) (rest : List CheckIn) :
    windowFrom w (c1 :: rest) =
      c1 :: rest.takeWhile (fun c2 => decide (c2.time - c1.time < w)) := by
  rw [windowFrom, List.takeWhile_cons_of_pos]
  simpa using hw

/-- C5: `windows` yields exactly one window per record whatever the window
size; the empty timeline yields no windows and `rendezvous` on it yields no
pairs and raises nothing; and for a positive window size the window at each
index starts with (hence contains) its own anchor. -/
theorem windows_one_per_record (t : CheckInTimeline) (w : Int) :
    (t.windows w).length = t.checkins.length ∧
    CheckInTimeline.empty.windows w = [] ∧
    CheckInTimeline.empty.rendezvous w = ([], none) ∧
    (0 < w → ∀ (i : Nat) (anchor : CheckIn), t.checkins[i]? = some anchor →
      ∃ win : List CheckIn, (t.windows w)[i]? = some win ∧ win.head? = some anchor) := by
  refine ⟨windows_length t w, rfl, rfl, fun hw i anchor ha => ?_⟩
  have hi : i < t.checkins.length := by
    rcases List.getElem?_eq_some.mp ha with ⟨h, _⟩
    exact h
  have hval : t.checkins[i] = anchor := by
    rcases List.getElem?_eq_some.mp ha with ⟨h, hv⟩
    exact hv
  have hdrop : t.checkins.drop i = anchor :: t.checkins.drop (i + 1) := by
    rw [List.drop_eq_getElem_cons hi, hval]
  refine ⟨windowFrom w (t.checkins.drop i), windows_getElem? t w i hi, ?_⟩
  rw [hdrop, windowFrom_head w hw]
  rfl

/-- A non-positive window size empties every window: already the anchor's own
offset `0` fails `0 < w`, and the inner scan breaks at once. -/
theorem windowFrom_nonpos (w : Int) (hw : w ≤ 0) (l : List CheckIn) :
    windowFrom w l = [] := by
  cases l with
  | nil => rfl
  | cons c1 rest =>
    rw [windowFrom, List.takeWhile_cons_of_neg]
    simp only [sub_self, decide_eq_true_eq, not_lt]
    exact hw

/-- For a non-positive window size `windows` is one empty tuple per record. -/
theorem windows_nonpos (t : CheckInTimeline) (w : Int) (hw : w ≤ 0) :
    t.windows w = List.replicate t.checkins.length [] := by
  rw [CheckInTimeline.windows]
  rw [List.eq_replicate_iff]
  constructor
  · simp
  · intro b hb
    rcases List.mem_map.mp hb with ⟨i, _, rfl⟩
    exact windowFrom_nonpos w hw _

/-- For a positive window size every window is non-empty. -/
theorem windows_nonempty (t : CheckInTimeline) (w : Int) (hw : 0 < w) :
    ∀ win ∈ t.windows w, win ≠ [] := by
  intro win hwin
  rcases List.mem_map.mp hwin with ⟨i, hi, rfl⟩
  have hi' : i < t.checkins.length := List.mem_range.mp hi
  have : t.checkins.drop i = t.checkins[i] :: t.checkins.drop (i + 1) :=
    List.drop_eq_getElem_cons hi'
  rw [this, windowFrom_head w hw]
  simp

/-- The rendezvous loop raises `IndexError` only on an empty window. -/
theorem rendezvousAux_no_index_error (ws : List (List CheckIn))
    (hne : ∀ win ∈ ws, win ≠ []) :
    (rendezvousAux ws).2 ≠ some RendError.indexError := by
  induction ws with
  | nil => simp [rendezvousAux]
  | cons win ws ih =>
    have hih := ih (fun v hv => hne v (List.mem_cons_of_mem win hv))
    cases win with
    | nil => exact absurd rfl (hne [] (List.mem_cons_self [] ws))
    | cons anchor rest =>
      rw [rendezvousAux]
      cases hfil : rest.filter (fun c => anchor.location == c.location) with
      | nil => exact hih
      | cons m tail =>
        cases tail with
        | nil => exact hih
        | cons m2 tail2 => simp

/-- A run of empty windows, one per record of a non-empty timeline, makes the
rendezvous loop fail at `window[0]` immediately. -/
theorem rendezvousAux_replicate_nil (m : Nat) :
    rendezvousAux (List.replicate (m + 1) []) = ([], some RendError.indexError) := by
  rw [List.replicate_succ]
  rfl

/-- C10: `rendezvous` reads `window[0]` without a guard.  With `w ≤ 0` every
window is the empty tuple (the anchor's own offset `0` already fails
`< window_size`), so on any non-empty timeline `rendezvous` raises
`IndexError` at the first window — not a `DataError`, not a skip — emitting
no pair; with `0 < w` every window is non-empty and the `window[0]` access
never raises. -/
theorem rendezvous_window_zero_access (t : CheckInTimeline) (w : Int) :
    (w ≤ 0 → t.windows w = List.replicate t.checkins.length []) ∧
    (w ≤ 0 → t.checkins ≠ [] →
      t.rendezvous w = ([], some RendError.indexError)) ∧
    (0 < w → ∀ win ∈ t.windows w, win ≠ []) ∧
    (0 < w → (t.rendezvous w).2 ≠ some RendError.indexError) := by
  refine ⟨windows_nonpos t w, fun hw hne => ?_, windows_nonempty t w,
    fun hw => rendezvousAux_no_index_error _ (windows_nonempty t w hw)⟩
  rcases hlen : t.checkins.length with _ | m
  · exact absurd (List.length_eq_zero.mp hlen) hne
  · rw [CheckInTimeline.rendezvous, windows_nonpos t w hw, hlen]
    exact rendezvousAux_replicate_nil m

/-- Windows produced by `windows` bound every non-anchor member strictly
within `w` of the anchor. -/
theorem windows_good (t : CheckInTimeline) (w : Int) :
    ∀ win ∈ t.windows w, ∀ (a : CheckIn) (rest : List CheckIn), win = a :: rest →
      ∀ m ∈ rest, m.time - a.time < w := by
  intro win hwin a rest heq m hm
  rcases List.mem_map.mp hwin with ⟨i, _, rfl⟩
  rcases hdrop : t.checkins.drop i with _ | ⟨c1, l'⟩
  · rw [hdrop] at heq
    simp [windowFrom] at heq
  · rw [hdrop, windowFrom, List.takeWhile_cons] at heq
    split at heq
    · injection heq with ha hrest
      rw [← hrest] at hm
      have := List.mem_takeWhile_imp hm
      rw [← ha]
      simpa using this
    · exact absurd heq (by simp)

/-- Soundness of the emitted pairs of the rendezvous loop: each comes from a
window of the supplied list, anchored at its first component, with the second
component a later member of that window at the same location. -/
theorem rendezvousAux_pairs_sound (w : Int) (ws : List (List CheckIn))
    (hgood : ∀ win ∈ ws, ∀ (a : CheckIn) (rest : List CheckIn), win = a :: rest →
      ∀ m ∈ rest, m.time - a.time < w) :
    ∀ p ∈ (rendezvousAux ws).1, ∃ rest : List CheckIn,
      (p.1 :: rest) ∈ ws ∧ p.2 ∈ rest ∧
      p.1.location = p.2.location ∧ p.2.time - p.1.time < w := by
  induction ws with
  | nil => simp [rendezvousAux]
  | cons win ws ih =>
    have hih := ih (fun v hv => hgood v (List.mem_cons_of_mem win hv))
    intro p hp
    cases win with
    | nil =>
      rw [rendezvousAux] at hp
      simp at hp
    | cons anchor rest =>
      rw [rendezvousAux] at hp
      rcases hfil : rest.filter (fun c => anchor.location == c.location) with _ | ⟨m, tail⟩
      · rw [hfil] at hp
        rcases hih p hp with ⟨r, hr, h2, h3, h4⟩
        exact ⟨r, List.mem_cons_of_mem _ hr, h2, h3, h4⟩
      · rcases tail with _ | ⟨m2, tail2⟩
        · rw [hfil] at hp
          rcases List.mem_cons.mp hp with hpeq | hp'
          · have hmf : m ∈ rest.filter (fun c => anchor.location == c.location) := by
              rw [hfil]; exact List.mem_cons_self m []
            have hmmem : m ∈ rest := (List.mem_filter.mp hmf).1
            have hmloc : anchor.location = m.location := by
              have := (List.mem_filter.mp hmf).2
              simpa using this
            refine ⟨rest, ?_, ?_, ?_, ?_⟩
            · rw [hpeq]
              exact List.mem_cons_self _ _
            · rw [hpeq]; exact hmmem
            · rw [hpeq]; exact hmloc
            · rw [hpeq]
              exact hgood (anchor :: rest) (List.mem_cons_self _ _) anchor rest rfl m hmmem
          · rcases hih p hp' with ⟨r, hr, h2, h3, h4⟩
            exact ⟨r, List.mem_cons_of_mem _ hr, h2, h3, h4⟩
        · rw [hfil] at hp
          simp at hp

/-- A window whose anchor has no colocated follower is skipped: no pair, no
error, iteration continues. -/
theorem rendezvousAux_cons_skip (anchor : CheckIn) (rest : List CheckIn)
    (ws : List (List CheckIn))
    (h : rest.filter (fun c => anchor.location == c.location) = []) :
    rendezvousAux ((anchor :: rest) :: ws) = rendezvousAux ws := by
  rw [rendezvousAux, h]

/-- A window whose anchor has exactly one colocated follower emits the pair
and iteration continues. -/
theorem rendezvousAux_cons_emit (anchor m : CheckIn) (rest : List CheckIn)
    (ws : List (List CheckIn))
    (h : rest.filter (fun c => anchor.location == c.location) = [m]) :
    rendezvousAux ((anchor :: rest) :: ws) =
      ((anchor, m) :: (rendezvousAux ws).1, (rendezvousAux ws).2) := by
  rw [rendezvousAux, h]

/-- A window whose anchor has two or more colocated followers raises the
`DataError` at once: nothing is emitted for it and iteration stops. -/
theorem rendezvousAux_cons_raise (anchor m1 m2 : CheckIn) (rest tail : List CheckIn)
    (ws : List (List CheckIn))
    (h : rest.filter (fun c => anchor.location == c.location) = m1 :: m2 :: tail) :
    rendezvousAux ((anchor :: rest) :: ws) =
      ([], some (RendError.dataError dataErrorMsg)) := by
  rw [rendezvousAux, h]

/-- Running the rendezvous loop past a block of well-behaved windows (all
non-empty, all with candidate groups of at most two members) emits exactly the
pairs of the exactly-two windows, then continues with the remaining windows. -/
theorem rendezvousAux_append (ws₁ ws₂ : List (List CheckIn))
    (hne : ∀ win ∈ ws₁, win ≠ [])
    (hok : ∀ win ∈ ws₁, (candGroup win).length ≤ 2) :
    rendezvousAux (ws₁ ++ ws₂) =
      (pairsOf ws₁ ++ (rendezvousAux ws₂).1, (rendezvousAux ws₂).2) := by
  induction ws₁ with
  | nil => simp [pairsOf]
  | cons win ws₁ ih =>
    have hih := ih (fun v hv => hne v (List.mem_cons_of_mem win hv))
      (fun v hv => hok v (List.mem_cons_of_mem win hv))
    cases win with
    | nil => exact absurd rfl (hne [] (List.mem_cons_self [] ws₁))
    | cons anchor rest =>
      rcases hfil : rest.filter (fun c => anchor.location == c.location)
        with _ | ⟨m, _ | ⟨m2, tail2⟩⟩
      · rw [List.cons_append, rendezvousAux_cons_skip _ _ _ hfil, hih]
        simp [pairsOf, List.filterMap_cons, hfil]
      · rw [List.cons_append, rendezvousAux_cons_emit _ _ _ _ hfil, hih]
        simp [pairsOf, List.filterMap_cons, hfil]
      · exfalso
        have hbound := hok (anchor :: rest) (List.mem_cons_self _ _)
        rw [candGroup, hfil] at hbound
        simp at hbound

/-- C2: every pair `rendezvous` emits consists of a window's anchor followed
by a later member of that window sharing the anchor's location and lying
strictly within the window size of it; and a window whose candidate group has
fewer than two members contributes nothing — no pair and no error. -/
theorem rendezvous_pairs_valid (t : CheckInTimeline) (w : Int) :
    (∀ p ∈ (t.rendezvous w).1, ∃ rest : List CheckIn,
        (p.1 :: rest) ∈ t.windows w ∧ p.2 ∈ rest ∧
        p.1.location = p.2.location ∧ p.2.time - p.1.time < w) ∧
    (∀ (anchor : CheckIn) (rest : List CheckIn) (ws : List (List CheckIn)),
        (candGroup (anchor :: rest)).length < 2 →
        rendezvousAux ((anchor :: rest) :: ws) = rendezvousAux ws) := by
  constructor
  · exact rendezvousAux_pairs_sound w _ (windows_good t w)
  · intro anchor rest ws h
    have hlen : (rest.filter (fun c => anchor.location == c.location)).length = 0 := by
      rw [candGroup] at h
      simp only [List.length_cons] at h
      omega
    exact rendezvousAux_cons_skip _ _ _ (List.length_eq_zero.mp hlen)

/-- C1: with a positive window size, if the window at position `i` is the
first whose candidate group (anchor plus colocated members) has three or more
members, then `rendezvous` emits exactly the pairs of the windows before `i`
— every one of them, in order — emits nothing for window `i`, and stops with
the `DataError` there; nothing after `i` is processed. -/
theorem rendezvous_oversized_group_raises (t : CheckInTimeline) (w : Int) (hw : 0 < w)
    (i : Nat) (win : List CheckIn) (hwin : (t.windows w)[i]? = some win)
    (hbig : 3 ≤ (candGroup win).length)
    (hfirst : ∀ j, j < i → ∀ win', (t.windows w)[j]? = some win' →
      (candGroup win').length ≤ 2) :
    t.rendezvous w =
      (pairsOf ((t.windows w).take i), some (RendError.dataError dataErrorMsg)) := by
  have hi : i < (t.windows w).length := by
    rcases List.getElem?_eq_some.mp hwin with ⟨h, _⟩
    exact h
  have hval : (t.windows w)[i] = win := by
    rcases List.getElem?_eq_some.mp hwin with ⟨h, hv⟩
    exact hv
  have hdecomp : t.windows w = (t.windows w).take i ++ win :: (t.windows w).drop (i + 1) := by
    rw [← hval, ← List.drop_eq_getElem_cons hi, List.take_append_drop]
  have hne₁ : ∀ v ∈ (t.windows w).take i, v ≠ [] :=
    fun v hv => windows_nonempty t w hw v (List.mem_of_mem_take hv)
  have hok₁ : ∀ v ∈ (t.windows w).take i, (candGroup v).length ≤ 2 := by
    intro v hv
    rcases List.mem_iff_getElem?.mp hv with ⟨j, hj⟩
    have hjlt : j < i := by
      rcases List.getElem?_eq_some.mp hj with ⟨hlen, _⟩
      have hmin := List.length_take i (t.windows w)
      omega
    refine hfirst j hjlt v ?_
    rw [← List.getElem?_take_of_lt hjlt]
    exact hj
  rcases win with _ | ⟨anchor, rest⟩
  · simp [candGroup] at hbig
  · have hflen : 2 ≤ (rest.filter (fun c => anchor.location == c.location)).length := by
      rw [candGroup] at hbig
      simp only [List.length_cons] at hbig
      omega
    rcases hfil : rest.filter (fun c => anchor.location == c.location)
      with _ | ⟨m1, _ | ⟨m2, tail⟩⟩
    · rw [hfil] at hflen
      simp at hflen
    · rw [hfil] at hflen
      simp at hflen
    · rw [CheckInTimeline.rendezvous]
      conv_lhs => rw [hdecomp]
      rw [rendezvousAux_append _ _ hne₁ hok₁, rendezvousAux_cons_raise _ _ _ _ _ _ hfil]
      simp

/-- Sample record: Alice checks in at the Vault at time 0. -/
def wAlice : CheckIn := ⟨"Alice", 1, "Vault", 0⟩

/-- Sample record: Bob checks in at the Vault ten minutes later. -/
def wBob : CheckIn := ⟨"Bob", 2, "Vault", 600⟩

/-- Sample record: Carol checks in at the Vault twenty minutes in. -/
def wCarol : CheckIn := ⟨"Carol", 3, "Vault", 1200⟩

/-- Sample timeline holding the Alice and Bob check-ins. -/
def wPair : CheckInTimeline := ⟨[wAlice, wBob]⟩

/-- Sample timeline holding three colocated check-ins within one hour. -/
def wTriple : CheckInTimeline := ⟨[wAlice, wBob, wCarol]⟩

/-- Witness for C1: three colocated check-ins within the hour make
`rendezvous` raise the `DataError` at the very first window, with no pair
emitted. -/
theorem rendezvous_oversized_group_raises_witness :
    wTriple.rendezvous 3600 = ([], some (RendError.dataError dataErrorMsg)) := by
  have h := rendezvous_oversized_group_raises wTriple 3600 (by decide) 0
    [wAlice, wBob, wCarol] (by decide) (by decide)
    (fun j hj win' hw => absurd hj (Nat.not_lt_zero j))
  simpa [pairsOf] using h

/-- Witness for C2 at the two-record timeline: the emitted pair
`(Alice, Bob)` is anchored at Alice's window, colocated, and within the
hour. -/
theorem rendezvous_pairs_valid_witness :
    ∃ rest : List CheckIn, (wAlice :: rest) ∈ wPair.windows 3600 ∧ wBob ∈ rest ∧
      wAlice.location = wBob.location ∧ wBob.time - wAlice.time < 3600 :=
  (rendezvous_pairs_valid wPair 3600).1 (wAlice, wBob) (by decide)

/-- Witness for C3 at the two-record timeline, index 0. -/
theorem windows_are_maximal_runs_witness :
    (wPair.windows 3600)[0]? = some (windowFrom 3600 (wPair.checkins.drop 0)) ∧
    (∀ m ∈ windowFrom 3600 (wPair.checkins.drop 0),
      wAlice.time ≤ m.time ∧ m.time - wAlice.time < 3600) ∧
    windowFrom 3600 (wPair.checkins.drop 0) =
      (wPair.checkins.drop 0).take (windowFrom 3600 (wPair.checkins.drop 0)).length ∧
    (∀ x, (wPair.checkins.drop 0)[(windowFrom 3600 (wPair.checkins.drop 0)).length]? =
        some x → 3600 ≤ x.time - wAlice.time) :=
  windows_are_maximal_runs wPair 3600 (by unfold SortedByTime; decide) 0 wAlice (by decide)

/-- Witness for C5 at the two-record timeline: the first window starts with
its own anchor. -/
theorem windows_one_per_record_witness :
    ∃ win : List CheckIn, (wPair.windows 3600)[0]? = some win ∧
      win.head? = some wAlice :=
  (windows_one_per_record wPair 3600).2.2.2 (by decide) 0 wAlice (by decide)

/-- Witness for C10: with window size `-5` the two-record timeline yields two
empty windows and `rendezvous` raises `IndexError` at the first one. -/
theorem rendezvous_window_zero_access_witness :
    wPair.windows (-5) = List.replicate wPair.checkins.length [] ∧
    wPair.rendezvous (-5) = ([], some RendError.indexError) := by
  have h := rendezvous_window_zero_access wPair (-5)
  exact ⟨h.1 (by decide), h.2.1 (by decide) (by decide)⟩
